import Mathlib

/-!
A shallow embedding of the marconi queue/message/claim storage contract and
of the WSGI claims transport handler.

The storage controllers themselves are not part of the checked-in sources;
the sources contain their contract tests (tests/unit/storage/base.py) and
the WSGI transport (marconi/queues/transport/wsgi/claims.py).  The storage
model below is therefore modelled from the storage-contract sections of the
specification (data model, queue/message/claim controller operations, error
taxonomy), in the shape that the contract tests exercise.
-/

namespace Marconi

/-- Modelled from the spec: identifiers (message ids, claim ids) are opaque
tokens handed out by the driver; a syntactically malformed token is never a
driver-issued identifier and is treated as absent.  Driver-issued tokens are
`Ident.valid n`; any other client-supplied string is `Ident.malformed s`. -/
inductive Ident where
  | valid (n : Nat)
  | malformed (s : String)
deriving DecidableEq

/-- Modelled from the spec: the closed error taxonomy of the storage layer
(section 7), restricted to the errors the claims need. -/
inductive Err where
  | queueDoesNotExist
  | messageDoesNotExist
  | claimDoesNotExist
  | notPermitted
deriving DecidableEq

/-- Result of a fallible controller operation. -/
inductive Res (α : Type) where
  | ok (val : α)
  | err (e : Err)
deriving DecidableEq

def Res.isOk {α : Type} : Res α → Bool
  | .ok _ => true
  | .err _ => false

/-- Modelled from the spec: a message record — body (opaque), ttl in
seconds, creation time, posting client uuid, and the optional claim
currently bound to the message. -/
structure Message where
  body : String
  ttl : Nat
  createdAt : Nat
  clientUuid : String
  claimId : Option Nat
deriving DecidableEq

/-- Modelled from the spec: a claim record — ttl, grace, creation time;
`expires_at = createdAt + ttl`. -/
structure Claim where
  ttl : Nat
  grace : Nat
  createdAt : Nat
deriving DecidableEq

/-- Modelled from the spec: per-queue storage state.  Messages and claims
are insertion-ordered association lists keyed by driver-issued numeric ids;
insertion order is FIFO order by creation. -/
structure QueueState where
  metadata : List (String × String)
  messages : List (Nat × Message)
  claims : List (Nat × Claim)
  nextMsgId : Nat
  nextClaimId : Nat
deriving DecidableEq

/-- The view of a message returned by reads, posts and claims. -/
structure MsgView where
  id : Nat
  ttl : Nat
  body : String
deriving DecidableEq

/-- The claim metadata returned by claim.get. -/
structure ClaimView where
  id : Nat
  ttl : Nat
deriving DecidableEq

/-- Queue statistics: free / claimed / total message counts. -/
structure Stats where
  free : Nat
  claimed : Nat
  total : Nat
deriving DecidableEq

/-- A page of message views plus the pagination marker. -/
structure Page where
  items : List MsgView
  marker : Option Nat
deriving DecidableEq

/-- An entry of a queue listing; metadata is present iff the listing was
detailed. -/
structure QueueEntry where
  name : String
  metadata : Option (List (String × String))
deriving DecidableEq

/-- The store maps (project, queue name) to per-queue state. -/
abbrev Store := List ((String × String) × QueueState)

/-- First-match lookup in an association list with numeric keys. -/
def lookupA {α : Type} : List (Nat × α) → Nat → Option α
  | [], _ => none
  | (k, v) :: rest, i => if k = i then some v else lookupA rest i

/-- Replace the value bound to the first occurrence of a key. -/
def setA {α : Type} : List (Nat × α) → Nat → α → List (Nat × α)
  | [], _, _ => []
  | (k, v) :: rest, i, w => if k = i then (k, w) :: rest else (k, v) :: setA rest i w

/-- Remove every binding of a key. -/
def removeA {α : Type} (l : List (Nat × α)) (i : Nat) : List (Nat × α) :=
  l.filter (fun p => decide (p.1 ≠ i))

/-- A message is expired when its ttl has fully elapsed. -/
def expiredb (now : Nat) (m : Message) : Bool :=
  decide (m.createdAt + m.ttl ≤ now)

/-- Remaining ttl of a message. -/
def remaining (now : Nat) (m : Message) : Nat :=
  m.createdAt + m.ttl - now

/-- A claim is live while its ttl has not elapsed. -/
def claimLiveb (now : Nat) (c : Claim) : Bool :=
  decide (now < c.createdAt + c.ttl)

/-- The live claim currently owning a message, if any: the message's bound
claim id, provided that claim record exists and has not expired.  Ownership
is released the moment the claim expires. -/
def liveClaimOf (claims : List (Nat × Claim)) (now : Nat) (m : Message) : Option Nat :=
  match m.claimId with
  | none => none
  | some c =>
    match lookupA claims c with
    | none => none
    | some cl => if claimLiveb now cl then some c else none

/-- A message is selectable by claim creation when it is non-expired and has
no live claim. -/
def claimable (claims : List (Nat × Claim)) (now : Nat) (m : Message) : Bool :=
  !(expiredb now m) && (liveClaimOf claims now m).isNone

def mkView (i : Nat) (m : Message) : MsgView :=
  ⟨i, m.ttl, m.body⟩

/-- Modelled from the spec: binding a message to a fresh claim extends its
effective ttl to max(remaining ttl, claim ttl + grace), measured from now. -/
def claimMsg (now ttl grace cid : Nat) (m : Message) : Message :=
  { m with
    claimId := some cid
    ttl := max (remaining now m) (ttl + grace)
    createdAt := now }

/-- Modelled from the spec: message posting — each spec (ttl, body) gets the
next sequential id, creation time now, and no claim. -/
def buildMsgs (now : Nat) (uuid : String) : List (Nat × String) → Nat → List (Nat × Message)
  | [], _ => []
  | (ttl, body) :: rest, i =>
    (i, ⟨body, ttl, now, uuid, none⟩) :: buildMsgs now uuid rest (i + 1)

def msgPost (now : Nat) (qs : QueueState) (specs : List (Nat × String)) (uuid : String) :
    List Nat × QueueState :=
  let newMsgs := buildMsgs now uuid specs qs.nextMsgId
  (newMsgs.map (·.1),
   { qs with
     messages := qs.messages ++ newMsgs
     nextMsgId := qs.nextMsgId + specs.length })

/-- Modelled from the spec: message.get fails MessageDoesNotExist if the id
is missing, expired, or malformed. -/
def msgGet (now : Nat) (qs : QueueState) (mid : Ident) : Res MsgView :=
  match mid with
  | .malformed _ => .err .messageDoesNotExist
  | .valid i =>
    match lookupA qs.messages i with
    | none => .err .messageDoesNotExist
    | some m =>
      if expiredb now m then .err .messageDoesNotExist
      else .ok (mkView i m)

def removeMsg (qs : QueueState) (i : Nat) : QueueState :=
  { qs with messages := removeA qs.messages i }

/-- Modelled from the spec: message.delete — absent, expired and malformed
ids are silent no-ops; with no claim token the message must be unclaimed;
a malformed claim token matches no live claim, so it succeeds only on a
message without a live claim; a valid claim token must equal the message's
current live claim, otherwise NotPermitted. -/
def msgDelete (now : Nat) (qs : QueueState) (mid : Ident) (claim : Option Ident) :
    Res QueueState :=
  match mid with
  | .malformed _ => .ok qs
  | .valid i =>
    match lookupA qs.messages i with
    | none => .ok qs
    | some m =>
      if expiredb now m then .ok qs
      else
        match claim with
        | none =>
          if (liveClaimOf qs.claims now m).isSome then .err .notPermitted
          else .ok (removeMsg qs i)
        | some (.malformed _) =>
          if (liveClaimOf qs.claims now m).isSome then .err .notPermitted
          else .ok (removeMsg qs i)
        | some (.valid c) =>
          if liveClaimOf qs.claims now m = some c then .ok (removeMsg qs i)
          else .err .notPermitted

/-- Message listing filter: never expired messages; the poster's own
messages only with echo; claimed messages only when included. -/
def listable (claims : List (Nat × Claim)) (now : Nat) (uuid : String) (echo inclClaimed : Bool)
    (m : Message) : Bool :=
  !(expiredb now m) && (echo || !(m.clientUuid = uuid : Bool))
    && (inclClaimed || (liveClaimOf claims now m).isNone)

/-- Modelled from the spec: message.list — pages in id (creation) order
strictly after the marker; a malformed marker yields an empty page. -/
def msgList (now : Nat) (qs : QueueState) (marker : Option Ident) (limit : Nat)
    (echo : Bool) (uuid : String) (inclClaimed : Bool) : Page :=
  match marker with
  | some (.malformed _) => ⟨[], none⟩
  | some (.valid n) =>
    let sel := (qs.messages.filter
      (fun p => decide (n < p.1) && listable qs.claims now uuid echo inclClaimed p.2)).take limit
    ⟨sel.map (fun p => mkView p.1 p.2), (sel.map (·.1)).getLast?⟩
  | none =>
    let sel := (qs.messages.filter
      (fun p => listable qs.claims now uuid echo inclClaimed p.2)).take limit
    ⟨sel.map (fun p => mkView p.1 p.2), (sel.map (·.1)).getLast?⟩

/-- Selection step of claim creation: walk the messages FIFO, bind up to
lim claimable messages to the fresh claim cid, extending their ttl; return
the updated message list and the views of the selected messages. -/
def claimSelect (claims : List (Nat × Claim)) (now cid ttl grace : Nat) :
    List (Nat × Message) → Nat → List (Nat × Message) × List MsgView
  | [], _ => ([], [])
  | (i, m) :: rest, lim =>
    if lim = 0 then ((i, m) :: rest, [])
    else if claimable claims now m then
      let m' := claimMsg now ttl grace cid m
      let p := claimSelect claims now cid ttl grace rest (lim - 1)
      ((i, m') :: p.1, mkView i m' :: p.2)
    else
      let p := claimSelect claims now cid ttl grace rest lim
      ((i, m) :: p.1, p.2)

/-- Modelled from the spec: claim.create — atomically select up to limit
unclaimed non-expired messages FIFO, bind them to a fresh claim record with
the given ttl and grace, and return the claim id with the claimed views. -/
def claimCreate (now : Nat) (qs : QueueState) (ttl grace limit : Nat) :
    Nat × List MsgView × QueueState :=
  let cid := qs.nextClaimId
  let p := claimSelect qs.claims now cid ttl grace qs.messages limit
  (cid, p.2,
   { qs with
     messages := p.1
     claims := (cid, ⟨ttl, grace, now⟩) :: qs.claims
     nextClaimId := cid + 1 })

/-- Whether a message is visible as owned by claim cid: bound to it and not
expired. -/
def ownedb (now cid : Nat) (m : Message) : Bool :=
  !(expiredb now m) && (m.claimId = some cid : Bool)

/-- Views of the non-expired messages currently bound to claim c, FIFO. -/
def ownedViewsL (now cid : Nat) (msgs : List (Nat × Message)) : List MsgView :=
  (msgs.filter (fun p => ownedb now cid p.2)).map (fun p => mkView p.1 p.2)

def ownedViews (now : Nat) (qs : QueueState) (cid : Nat) : List MsgView :=
  ownedViewsL now cid qs.messages

/-- Modelled from the spec: claim.get fails ClaimDoesNotExist on absent,
expired or malformed ids; otherwise returns the claim metadata and the
messages it owns. -/
def claimGet (now : Nat) (qs : QueueState) (cid : Ident) : Res (ClaimView × List MsgView) :=
  match cid with
  | .malformed _ => .err .claimDoesNotExist
  | .valid c =>
    match lookupA qs.claims c with
    | none => .err .claimDoesNotExist
    | some cl =>
      if claimLiveb now cl then .ok (⟨c, cl.ttl⟩, ownedViews now qs c)
      else .err .claimDoesNotExist

/-- Modelled from the spec: claim.update resets expires_at = now + ttl on
the claim record only; fails ClaimDoesNotExist on absent, expired or
malformed ids; the owned messages are untouched. -/
def claimUpdate (now : Nat) (qs : QueueState) (cid : Ident) (ttl : Nat) : Res QueueState :=
  match cid with
  | .malformed _ => .err .claimDoesNotExist
  | .valid c =>
    match lookupA qs.claims c with
    | none => .err .claimDoesNotExist
    | some cl =>
      if claimLiveb now cl then
        .ok { qs with claims := setA qs.claims c { cl with ttl := ttl, createdAt := now } }
      else .err .claimDoesNotExist

/-- Release every message bound to claim c back to unclaimed. -/
def unclaimMsgs (msgs : List (Nat × Message)) (c : Nat) : List (Nat × Message) :=
  msgs.map (fun p => if p.2.claimId = some c then (p.1, { p.2 with claimId := none }) else p)

/-- Modelled from the spec: claim.delete is idempotent — it drops the claim
record and releases its messages; absent and malformed ids are silent
no-ops. -/
def claimDelete (qs : QueueState) (cid : Ident) : QueueState :=
  match cid with
  | .malformed _ => qs
  | .valid c =>
    { qs with claims := removeA qs.claims c, messages := unclaimMsgs qs.messages c }

/-- Whether the message bound to claim c is counted as claimed by stats:
non-expired and owned by a live claim. -/
def claimedb (claims : List (Nat × Claim)) (now : Nat) (m : Message) : Bool :=
  (liveClaimOf claims now m).isSome

/-- Modelled from the spec: queue stats — free, claimed and total counts
over the non-expired messages only. -/
def statsM (now : Nat) (qs : QueueState) : Stats :=
  let live := qs.messages.filter (fun p => !(expiredb now p.2))
  ⟨(live.filter (fun p => !(claimedb qs.claims now p.2))).length,
   (live.filter (fun p => claimedb qs.claims now p.2)).length,
   live.length⟩

/-- Count of non-expired messages in a queue. -/
def liveCount (now : Nat) (qs : QueueState) : Nat :=
  (qs.messages.filter (fun p => !(expiredb now p.2))).length

/-- The empty per-queue state a fresh queue starts with. -/
def emptyQueue : QueueState :=
  ⟨[], [], [], 0, 0⟩

def queueKeyMatch (p n : String) (q : (String × String) × QueueState) : Bool :=
  (q.1.1 = p : Bool) && (q.1.2 = n : Bool)

def queueExists (s : Store) (p n : String) : Bool :=
  s.any (queueKeyMatch p n)

/-- Modelled from the spec: queue.create is idempotent — true iff a new
record was persisted, and a re-create mutates nothing. -/
def queueCreate (s : Store) (p n : String) : Bool × Store :=
  if queueExists s p n then (false, s)
  else (true, ((p, n), emptyQueue) :: s)

/-- Modelled from the spec: queue.get_metadata fails QueueDoesNotExist when
the queue is absent. -/
def queueGetMeta (s : Store) (p n : String) : Res (List (String × String)) :=
  match s.find? (queueKeyMatch p n) with
  | none => .err .queueDoesNotExist
  | some q => .ok q.2.metadata

/-- Modelled from the spec: queue.set_metadata replaces metadata wholesale;
fails QueueDoesNotExist when the queue is absent. -/
def queueSetMeta (s : Store) (p n : String) (md : List (String × String)) : Res Store :=
  if queueExists s p n then
    .ok (s.map (fun q => if queueKeyMatch p n q then (q.1, { q.2 with metadata := md }) else q))
  else .err .queueDoesNotExist

/-- Character order by code point. -/
def charListLt : List Char → List Char → Bool
  | _, [] => false
  | [], _ :: _ => true
  | a :: as, b :: bs =>
    decide (a.toNat < b.toNat) || ((a.toNat = b.toNat : Bool) && charListLt as bs)

/-- Lexicographic order on queue names. -/
def strLtb (a b : String) : Bool :=
  charListLt a.data b.data

def insertName (n : String) : List String → List String
  | [] => [n]
  | m :: ms => if strLtb n m then n :: m :: ms else m :: insertName n ms

/-- Sort queue names into the stable lexicographic listing order. -/
def sortNames : List String → List String
  | [] => []
  | n :: ns => insertName n (sortNames ns)

/-- A page of queue entries plus the pagination marker. -/
structure QueuePage where
  items : List QueueEntry
  marker : Option String
deriving DecidableEq

def queueMetaOf (s : Store) (p n : String) : List (String × String) :=
  match s.find? (queueKeyMatch p n) with
  | none => []
  | some q => q.2.metadata

/-- Modelled from the spec: queue.list — up to limit queues of the project
in lexicographic name order, strictly after the marker; detailed listings
carry the metadata; the marker returned is the last name of the page. -/
def queueList (s : Store) (p : String) (marker : Option String) (limit : Nat)
    (detailed : Bool) : QueuePage :=
  let names := sortNames ((s.filter (fun q => (q.1.1 = p : Bool))).map (fun q => q.1.2))
  let after := match marker with
    | none => names
    | some mk => names.filter (fun n => strLtb mk n)
  let page := after.take limit
  ⟨page.map (fun n => ⟨n, if detailed then some (queueMetaOf s p n) else none⟩),
   page.getLast?⟩

/-- claim.delete of one queue of the store; queues are untouched when the
(project, name) key does not match. -/
def storeClaimDelete (s : Store) (p n : String) (cid : Ident) : Store :=
  s.map (fun q => if queueKeyMatch p n q then (q.1, claimDelete q.2 cid) else q)

/-- The claim controller's delete as called by the transport: per the
storage contract it is idempotent and never fails on absent, expired or
malformed ids, so the fallible boundary always returns ok. -/
def claimDeleteCtl (s : Store) (p n : String) (cid : Ident) : Res Store :=
  .ok (storeClaimDelete s p n cid)

/-- Translated from marconi/queues/transport/wsgi/claims.py,
ItemResource.on_delete: call claim_controller.delete and respond 204; any
controller failure would be caught and mapped to 503. -/
def onDeleteClaim (s : Store) (p n : String) (cid : Ident) : Nat × Store :=
  match claimDeleteCtl s p n cid with
  | .ok s' => (204, s')
  | .err _ => (503, s)

/-- Observer: the live claim owning message i, as the delete authority
check sees it — none when the message is absent or expired. -/
def liveClaimAt (now : Nat) (qs : QueueState) (i : Nat) : Option Nat :=
  match lookupA qs.messages i with
  | none => none
  | some m => if expiredb now m then none else liveClaimOf qs.claims now m

/-- Observer: whether a stored message with id i exists and has expired. -/
def msgExpiredAt (now : Nat) (qs : QueueState) (i : Nat) : Bool :=
  match lookupA qs.messages i with
  | none => false
  | some m => expiredb now m

def msgClaimIdLt (nc : Nat) (m : Message) : Bool :=
  match m.claimId with
  | none => true
  | some c => decide (c < nc)

/-- Well-formedness: every claim id bound to a message was issued before
the next claim id, so a freshly issued claim id is bound to no message. -/
def WFb (qs : QueueState) : Bool :=
  qs.messages.all (fun p => msgClaimIdLt qs.nextClaimId p.2)

/-- A queue state holding n messages posted at time 0 with the given ttl,
as _insert_fixtures does. -/
def fixtures (n ttl : Nat) : QueueState :=
  (msgPost 0 emptyQueue (List.replicate n (ttl, "b")) "my_uuid").2

/-- Scenario of test_claim_effects: 12 messages, claim A takes the first
10 at default limit. -/
def qsClaimA : QueueState :=
  (claimCreate 0 (fixtures 12 120) 70 60 10).2.2

/-- Scenario of test_claim_effects: claim B takes the remaining two
messages, ids 10 and 11. -/
def claimResB : Nat × List MsgView × QueueState :=
  claimCreate 0 qsClaimA 70 60 10

/-- Scenario of test_claim_effects: the state after message 10 was deleted
under claim B. -/
def qsAfterDel1 : QueueState :=
  removeMsg claimResB.2.2 10

/-- Scenario of test_expired_message: two messages posted with ttl 0. -/
def qsTwoExpired : QueueState :=
  (msgPost 0 (msgPost 0 emptyQueue [(0, "pi")] "my_uuid").2 [(0, "pi")] "my_uuid").2

/-- Scenario of test_expired_claim: a claim created with ttl 0 over a queue
holding one fresh message. -/
def zeroTtlClaim : Nat × List MsgView × QueueState :=
  claimCreate 0 (fixtures 1 100) 0 60 10

/-- Scenario of test_claim_lifecycle: 20 messages, claim of 15 with ttl 70
and grace 30. -/
def lifecycleClaim : Nat × List MsgView × QueueState :=
  claimCreate 0 (fixtures 20 120) 70 30 15

/-- The state after updating the live lifecycle claim to ttl 0. -/
def qsZeroUpdate : QueueState :=
  match claimUpdate 0 lifecycleClaim.2.2 (Ident.valid 0) 0 with
  | Res.ok qs => qs
  | Res.err _ => emptyQueue

/-- Scenario of QueueControllerTest.test_list: 15 queues named 0..14 under
one project. -/
def qnames : List String :=
  (List.range 15).map (fun n => toString n)

def storeC6 : Store :=
  qnames.foldl (fun s n => (queueCreate s "project" n).2) []

/-- Scenario of test_queue_lifecycle: queue test created and its metadata
set. -/
def sMetaQueue : Store :=
  match queueSetMeta (queueCreate [] "project" "test").2 "project" "test"
      [("meta", "test_meta")] with
  | Res.ok s => s
  | Res.err _ => []

theorem length_filter_not_add {α : Type} (p : α → Bool) :
    ∀ l : List α,
      (l.filter (fun a => !(p a))).length + (l.filter p).length = l.length := by
  intro l
  induction l with
  | nil => rfl
  | cons a t ih =>
    cases h : p a with
    | true =>
      simp only [List.filter_cons, h, Bool.not_true, Bool.false_eq_true, if_false,
        if_pos trivial, List.length_cons]
      omega
    | false =>
      simp only [List.filter_cons, h, Bool.not_false, Bool.false_eq_true, if_false,
        if_pos trivial, List.length_cons]
      omega

theorem lookupA_setA {α : Type} (v : α) :
    ∀ (l : List (Nat × α)) (k : Nat),
      (lookupA l k).isSome = true → lookupA (setA l k v) k = some v := by
  intro l
  induction l with
  | nil => intro k h; simp [lookupA] at h
  | cons hd tl ih =>
    intro k h
    obtain ⟨j, w⟩ := hd
    by_cases hk : j = k
    · simp [setA, lookupA, hk]
    · simp only [setA, lookupA, hk, if_false] at h ⊢
      exact ih k h

theorem claimable_not_expired {claims : List (Nat × Claim)} {now : Nat} {m : Message}
    (h : claimable claims now m = true) : expiredb now m = false := by
  simp only [claimable, Bool.and_eq_true, Bool.not_eq_true'] at h
  exact h.1

theorem claimMsg_not_expired {claims : List (Nat × Claim)} {now : Nat} (ttl grace cid : Nat)
    {m : Message} (h : claimable claims now m = true) :
    expiredb now (claimMsg now ttl grace cid m) = false := by
  have hexp := claimable_not_expired h
  simp only [expiredb, decide_eq_false_iff_not, Nat.not_le] at hexp ⊢
  simp only [claimMsg, remaining]
  omega

theorem claimSelect_views_spec (claims : List (Nat × Claim)) (now cid ttl grace : Nat) :
    ∀ (msgs : List (Nat × Message)) (lim : Nat) (v : MsgView),
      v ∈ (claimSelect claims now cid ttl grace msgs lim).2 →
      ∃ i m, (i, m) ∈ msgs ∧ v.id = i ∧ v.ttl = max (remaining now m) (ttl + grace) := by
  intro msgs
  induction msgs with
  | nil => intro lim v h; simp [claimSelect] at h
  | cons hd tl ih =>
    intro lim v h
    obtain ⟨i, m⟩ := hd
    by_cases h0 : lim = 0
    · simp [claimSelect, h0] at h
    · by_cases hc : claimable claims now m = true
      · simp only [claimSelect, h0, if_false, hc, if_true, List.mem_cons] at h
        rcases h with h | h
        · exact ⟨i, m, List.mem_cons_self _ _, by simp [h, mkView, claimMsg]⟩
        · obtain ⟨i', m', hm, hv⟩ := ih (lim - 1) v h
          exact ⟨i', m', List.mem_cons_of_mem _ hm, hv⟩
      · simp only [claimSelect, h0, if_false, hc] at h
        obtain ⟨i', m', hm, hv⟩ := ih lim v h
        exact ⟨i', m', List.mem_cons_of_mem _ hm, hv⟩

theorem ownedb_eq_false {now cid : Nat} {m : Message} (h : m.claimId ≠ some cid) :
    ownedb now cid m = false := by
  simp [ownedb, h]

theorem ownedViewsL_cons_false (now cid : Nat) (hd : Nat × Message)
    (tl : List (Nat × Message)) (h : ownedb now cid hd.2 = false) :
    ownedViewsL now cid (hd :: tl) = ownedViewsL now cid tl := by
  simp only [ownedViewsL, List.filter_cons, h, Bool.false_eq_true, if_false]

theorem ownedViewsL_cons_true (now cid : Nat) (hd : Nat × Message)
    (tl : List (Nat × Message)) (h : ownedb now cid hd.2 = true) :
    ownedViewsL now cid (hd :: tl) = mkView hd.1 hd.2 :: ownedViewsL now cid tl := by
  simp only [ownedViewsL, List.filter_cons, h, if_pos trivial, List.map_cons]

theorem ownedViewsL_nil_of (now cid : Nat) :
    ∀ msgs : List (Nat × Message),
      (∀ p ∈ msgs, p.2.claimId ≠ some cid) → ownedViewsL now cid msgs = [] := by
  intro msgs
  induction msgs with
  | nil => intro _; rfl
  | cons hd tl ih =>
    intro h
    have hhd : hd.2.claimId ≠ some cid := h hd (List.mem_cons_self _ _)
    rw [ownedViewsL_cons_false now cid hd tl (ownedb_eq_false hhd)]
    exact ih (fun p hp => h p (List.mem_cons_of_mem _ hp))

theorem claimSelect_owned (claims : List (Nat × Claim)) (now cid ttl grace : Nat) :
    ∀ (msgs : List (Nat × Message)) (lim : Nat),
      (∀ p ∈ msgs, p.2.claimId ≠ some cid) →
      ownedViewsL now cid (claimSelect claims now cid ttl grace msgs lim).1
        = (claimSelect claims now cid ttl grace msgs lim).2 := by
  intro msgs
  induction msgs with
  | nil => intro lim _; rfl
  | cons hd tl ih =>
    intro lim h
    obtain ⟨i, m⟩ := hd
    have htl : ∀ p ∈ tl, p.2.claimId ≠ some cid :=
      fun p hp => h p (List.mem_cons_of_mem _ hp)
    by_cases h0 : lim = 0
    · simp only [claimSelect, h0, if_true]
      exact ownedViewsL_nil_of now cid _ h
    · by_cases hc : claimable claims now m = true
      · simp only [claimSelect, h0, if_false, hc, if_true]
        have hne := claimMsg_not_expired ttl grace cid hc
        have hcond : ownedb now cid (claimMsg now ttl grace cid m) = true := by
          simp only [ownedb, hne, Bool.not_false, Bool.true_and, decide_eq_true_eq]
          rfl
        rw [ownedViewsL_cons_true now cid _ _ hcond, ih (lim - 1) htl]
      · simp only [claimSelect, h0, if_false, hc, Bool.false_eq_true]
        have hhd : m.claimId ≠ some cid := h (i, m) (List.mem_cons_self _ _)
        rw [ownedViewsL_cons_false now cid (i, m) _ (ownedb_eq_false hhd)]
        exact ih lim htl

theorem WFb_not_bound {qs : QueueState} (hwf : WFb qs = true) :
    ∀ p ∈ qs.messages, p.2.claimId ≠ some qs.nextClaimId := by
  intro p hp
  have := (List.all_eq_true.mp hwf) p hp
  simp only [msgClaimIdLt] at this
  cases hcl : p.2.claimId with
  | none => simp
  | some c =>
    rw [hcl] at this
    simp only [decide_eq_true_eq] at this
    simp only [ne_eq, Option.some.injEq]
    omega

/-- C1: for every message selected by claim.create with ttl T and grace G,
if the message had remaining ttl R at the moment of claim creation, the
message's ttl after claim creation is max(R, T + G); in particular, over
messages posted with ttl 120, claims with (ttl, grace) of (777, 0),
(777, 23), (100, 22) and (60, 30) report message ttls 777, 800, 122 and
120 respectively. -/
theorem claim_ttl_extension :
    (∀ (now : Nat) (qs : QueueState) (t g lim : Nat) (v : MsgView),
        v ∈ (claimCreate now qs t g lim).2.1 →
        ∃ i m, (i, m) ∈ qs.messages ∧ v.id = i ∧ v.ttl = max (remaining now m) (t + g))
    ∧ ((claimCreate 0 (fixtures 20 120) 777 0 10).2.1.length = 10
      ∧ ∀ v ∈ (claimCreate 0 (fixtures 20 120) 777 0 10).2.1, v.ttl = 777)
    ∧ ((claimCreate 0 (fixtures 20 120) 777 23 10).2.1.length = 10
      ∧ ∀ v ∈ (claimCreate 0 (fixtures 20 120) 777 23 10).2.1, v.ttl = 800)
    ∧ ((claimCreate 0 (fixtures 20 120) 100 22 10).2.1.length = 10
      ∧ ∀ v ∈ (claimCreate 0 (fixtures 20 120) 100 22 10).2.1, v.ttl = 122)
    ∧ ((claimCreate 0 (fixtures 20 120) 60 30 10).2.1.length = 10
      ∧ ∀ v ∈ (claimCreate 0 (fixtures 20 120) 60 30 10).2.1, v.ttl = 120) := by
  refine ⟨?_, by decide, by decide, by decide, by decide⟩
  intro now qs t g lim v hv
  exact claimSelect_views_spec qs.claims now qs.nextClaimId t g qs.messages lim v hv

/-- C3: queue stats satisfy free + claimed = total at every state, total
counting exactly the non-expired messages; after posting 20 messages and
claiming 15 of them the stats report free 5, claimed 15, total 20. -/
theorem stats_free_claimed_total :
    (∀ (now : Nat) (qs : QueueState),
        (statsM now qs).free + (statsM now qs).claimed = (statsM now qs).total
        ∧ (statsM now qs).total = liveCount now qs)
    ∧ statsM 0 lifecycleClaim.2.2 = ⟨5, 15, 20⟩ := by
  refine ⟨?_, by decide⟩
  intro now qs
  refine ⟨?_, rfl⟩
  exact length_filter_not_add (fun p : Nat × Message => claimedb qs.claims now p.2)
    (qs.messages.filter (fun p => !(expiredb now p.2)))

/-- C9: the HTTP DELETE handler for a claim always responds 204, for every
claim id — absent, expired and malformed included — because the claim
controller's delete is idempotent and never fails. -/
theorem claim_delete_http_always_204 (s : Store) (p n : String) (cid : Ident) :
    (onDeleteClaim s p n cid).1 = 204 := rfl

/-- C2: a message owned by a live claim c can be deleted exactly with the
claim id c: any other supplied claim id fails NotPermitted; in the
test_claim_effects scenario, deleting m1 with claim A's id fails
NotPermitted, with claim B's id succeeds, repeating that delete is a
silent no-op, and after claim B is deleted, deleting m2 with the stale id
fails NotPermitted. -/
theorem claim_guarded_delete :
    (∀ (now : Nat) (qs : QueueState) (i c x : Nat),
        liveClaimAt now qs i = some c →
        ((msgDelete now qs (Ident.valid i) (some (Ident.valid x))).isOk = true ↔ x = c))
    ∧ msgDelete 0 claimResB.2.2 (Ident.valid 10) (some (Ident.valid 0))
        = Res.err Err.notPermitted
    ∧ msgDelete 0 claimResB.2.2 (Ident.valid 10) (some (Ident.valid 1)) = Res.ok qsAfterDel1
    ∧ msgDelete 0 qsAfterDel1 (Ident.valid 10) (some (Ident.valid 1)) = Res.ok qsAfterDel1
    ∧ msgDelete 0 (claimDelete qsAfterDel1 (Ident.valid 1)) (Ident.valid 11)
        (some (Ident.valid 1)) = Res.err Err.notPermitted := by
  refine ⟨?_, by decide, by decide, by decide, by decide⟩
  intro now qs i c x h
  simp only [liveClaimAt] at h
  split at h
  · exact absurd h (by simp)
  · rename_i m hm
    split at h
    · exact absurd h (by simp)
    · rename_i hexp
      simp only [msgDelete, hm]
      rw [if_neg hexp, h]
      constructor
      · intro hok
        by_contra hx
        rw [if_neg (fun hcx => hx (Option.some.inj hcx).symm)] at hok
        exact absurd hok (by simp [Res.isOk])
      · intro hx
        subst hx
        rw [if_pos rfl]
        rfl

/-- C4: syntactically malformed identifiers behave as absent, never as
validation errors — message.delete of a malformed id is a silent no-op,
message.get of it fails MessageDoesNotExist, message.delete with a
malformed claim token on a message without a live claim does not fail,
message.list with a malformed marker returns an empty page, claim.delete
of a malformed id is a silent no-op, and claim.get / claim.update of a
malformed id fail ClaimDoesNotExist. -/
theorem malformed_ids_treated_absent :
    (∀ (now : Nat) (qs : QueueState) (s : String),
        msgDelete now qs (Ident.malformed s) none = Res.ok qs)
    ∧ (∀ (now : Nat) (qs : QueueState) (s : String),
        msgGet now qs (Ident.malformed s) = Res.err Err.messageDoesNotExist)
    ∧ (∀ (now : Nat) (qs : QueueState) (i : Nat) (s : String),
        liveClaimAt now qs i = none →
        (msgDelete now qs (Ident.valid i) (some (Ident.malformed s))).isOk = true)
    ∧ (∀ (now : Nat) (qs : QueueState) (s : String) (lim : Nat) (echo : Bool)
        (uuid : String) (incl : Bool),
        msgList now qs (some (Ident.malformed s)) lim echo uuid incl = ⟨[], none⟩)
    ∧ (∀ (qs : QueueState) (s : String), claimDelete qs (Ident.malformed s) = qs)
    ∧ (∀ (now : Nat) (qs : QueueState) (s : String),
        claimGet now qs (Ident.malformed s) = Res.err Err.claimDoesNotExist)
    ∧ (∀ (now : Nat) (qs : QueueState) (s : String) (t : Nat),
        claimUpdate now qs (Ident.malformed s) t = Res.err Err.claimDoesNotExist) := by
  refine ⟨fun _ _ _ => rfl, fun _ _ _ => rfl, ?_, fun _ _ _ _ _ _ _ => rfl,
    fun _ _ => rfl, fun _ _ _ => rfl, fun _ _ _ _ => rfl⟩
  intro now qs i s h
  simp only [liveClaimAt] at h
  split at h
  · rename_i hm
    simp [msgDelete, hm, Res.isOk]
  · rename_i m hm
    split at h
    · rename_i hexp
      simp [msgDelete, hm, hexp, Res.isOk]
    · rename_i hexp
      simp [msgDelete, hm, hexp, h, Res.isOk]

/-- C5: an entity whose ttl has elapsed is indistinguishable from an
absent one — message.get of any expired message fails MessageDoesNotExist
and message.delete of it is a silent no-op; a message posted with ttl 0 is
born expired, so its get fails and stats report free 0; a claim created
with ttl 0 is born expired, so an immediate claim.get and claim.update of
its id fail ClaimDoesNotExist. -/
theorem expired_indistinguishable_from_absent :
    (∀ (now : Nat) (qs : QueueState) (i : Nat),
        msgExpiredAt now qs i = true →
        msgGet now qs (Ident.valid i) = Res.err Err.messageDoesNotExist
        ∧ msgDelete now qs (Ident.valid i) none = Res.ok qs)
    ∧ msgGet 0 qsTwoExpired (Ident.valid 1) = Res.err Err.messageDoesNotExist
    ∧ (statsM 0 qsTwoExpired).free = 0
    ∧ claimGet 0 zeroTtlClaim.2.2 (Ident.valid zeroTtlClaim.1) = Res.err Err.claimDoesNotExist
    ∧ claimUpdate 0 zeroTtlClaim.2.2 (Ident.valid zeroTtlClaim.1) 40
        = Res.err Err.claimDoesNotExist := by
  refine ⟨?_, by decide, by decide, by decide, by decide⟩
  intro now qs i h
  simp only [msgExpiredAt] at h
  split at h
  · exact absurd h (by simp)
  · rename_i m hm
    exact ⟨by simp [msgGet, hm, h], by simp [msgDelete, hm, h]⟩

/-- C6: queue listing pages at the default limit 10 — with 15 queues named
0..14 under one project, a detailed listing returns 10 entries each
carrying a created name and metadata, and a second call threading the
returned marker yields exactly the remaining 5 queues. -/
theorem queue_list_default_limit_pagination :
    (queueList storeC6 "project" none 10 true).items.length = 10
    ∧ (∀ e ∈ (queueList storeC6 "project" none 10 true).items,
        e.name ∈ qnames ∧ e.metadata.isSome = true)
    ∧ (queueList storeC6 "project"
        (queueList storeC6 "project" none 10 true).marker 10 false).items.length = 5
    ∧ (queueList storeC6 "project" none 10 true).items.map QueueEntry.name
      ++ (queueList storeC6 "project"
          (queueList storeC6 "project" none 10 true).marker 10 false).items.map QueueEntry.name
      = sortNames qnames := by
  refine ⟨by decide, by decide, by decide, by decide⟩

theorem queueExists_cons_self (s : Store) (p n : String) (qs : QueueState) :
    queueExists (((p, n), qs) :: s) p n = true := by
  simp [queueExists, queueKeyMatch]

/-- C7: queue.create is idempotent — it returns true exactly when the
queue did not yet exist, a create on an existing queue leaves the store
unchanged, any second create returns false, and re-creating the test
queue after setting metadata leaves its metadata intact. -/
theorem queue_create_idempotent :
    (∀ (s : Store) (p n : String),
        ((queueCreate s p n).1 = true ↔ queueExists s p n = false)
        ∧ (queueExists s p n = true → (queueCreate s p n).2 = s)
        ∧ queueCreate (queueCreate s p n).2 p n = (false, (queueCreate s p n).2))
    ∧ (queueCreate [] "project" "test").1 = true
    ∧ queueCreate sMetaQueue "project" "test" = (false, sMetaQueue)
    ∧ queueGetMeta sMetaQueue "project" "test" = Res.ok [("meta", "test_meta")] := by
  refine ⟨?_, by decide, by decide, by decide⟩
  intro s p n
  by_cases h : queueExists s p n = true
  · refine ⟨by simp [queueCreate, h], fun _ => by simp [queueCreate, h], ?_⟩
    simp [queueCreate, h]
  · have h2 : queueExists s p n = false := by
      cases hq : queueExists s p n
      · rfl
      · exact absurd hq h
    refine ⟨by simp [queueCreate, h2], fun hex => absurd hex h, ?_⟩
    have h3 := queueExists_cons_self s p n emptyQueue
    simp [queueCreate, h2, h3]

/-- C8 as stated fails: updating the live lifecycle claim with ttl 0
succeeds and leaves the messages untouched, yet the subsequent claim.get
fails ClaimDoesNotExist instead of reporting the new ttl, because
expires_at = now + 0 is already in the past. -/
theorem claim_update_zero_ttl_get_fails :
    claimUpdate 0 lifecycleClaim.2.2 (Ident.valid 0) 0 = Res.ok qsZeroUpdate
    ∧ qsZeroUpdate.messages = lifecycleClaim.2.2.messages
    ∧ claimGet 0 qsZeroUpdate (Ident.valid 0) = Res.err Err.claimDoesNotExist := by
  refine ⟨by decide, by decide, by decide⟩

/-- C8 (amended): claim.update on a live claim succeeds and only touches
the claim record — the stored messages (hence the owned set and bodies)
are unchanged — and, provided the new ttl is positive, a subsequent
claim.get reports the new ttl with the same owned messages; claim.update
fails ClaimDoesNotExist on absent, expired and malformed claim ids. -/
theorem claim_update_frame :
    (∀ (now : Nat) (qs : QueueState) (c : Nat) (cl : Claim) (t : Nat),
        lookupA qs.claims c = some cl → claimLiveb now cl = true →
        ∃ qs', claimUpdate now qs (Ident.valid c) t = Res.ok qs'
          ∧ qs'.messages = qs.messages
          ∧ ownedViews now qs' c = ownedViews now qs c
          ∧ (0 < t → claimGet now qs' (Ident.valid c) = Res.ok (⟨c, t⟩, ownedViews now qs c)))
    ∧ (∀ (now : Nat) (qs : QueueState) (c t : Nat),
        lookupA qs.claims c = none →
        claimUpdate now qs (Ident.valid c) t = Res.err Err.claimDoesNotExist)
    ∧ (∀ (now : Nat) (qs : QueueState) (c : Nat) (cl : Claim) (t : Nat),
        lookupA qs.claims c = some cl → claimLiveb now cl = false →
        claimUpdate now qs (Ident.valid c) t = Res.err Err.claimDoesNotExist)
    ∧ (∀ (now : Nat) (qs : QueueState) (s : String) (t : Nat),
        claimUpdate now qs (Ident.malformed s) t = Res.err Err.claimDoesNotExist) := by
  refine ⟨?_, ?_, ?_, fun _ _ _ _ => rfl⟩
  · intro now qs c cl t hcl hlive
    refine ⟨{ qs with claims := setA qs.claims c { cl with ttl := t, createdAt := now } },
      by simp [claimUpdate, hcl, hlive], rfl, rfl, ?_⟩
    intro ht
    have hl : lookupA (setA qs.claims c { cl with ttl := t, createdAt := now }) c
        = some { cl with ttl := t, createdAt := now } :=
      lookupA_setA { cl with ttl := t, createdAt := now } qs.claims c (by simp [hcl])
    have hlive2 : claimLiveb now { cl with ttl := t, createdAt := now } = true := by
      simp only [claimLiveb, decide_eq_true_eq]
      omega
    simp [claimGet, hl, hlive2]
    rfl
  · intro now qs c t h
    simp [claimUpdate, h]
  · intro now qs c cl t hcl hlive
    simp [claimUpdate, hcl, hlive]

/-- C10 as stated fails: a claim created with ttl 0 over one fresh message
returns a non-empty message sequence, yet the immediate claim.get of the
returned claim id fails ClaimDoesNotExist instead of yielding the
messages. -/
theorem claim_roundtrip_fails_for_zero_ttl :
    zeroTtlClaim.2.1 ≠ []
    ∧ claimGet 0 zeroTtlClaim.2.2 (Ident.valid zeroTtlClaim.1)
        = Res.err Err.claimDoesNotExist := by
  refine ⟨by decide, by decide⟩

/-- C10 (amended): for every claim created by claim.create with a positive
ttl over a well-formed queue state, an immediate claim.get with the
returned claim id yields exactly the messages returned by create, in the
same order, with claim metadata id equal to the claim id and ttl equal to
the ttl supplied at creation. -/
theorem claim_roundtrip_live (now : Nat) (qs : QueueState) (t g lim : Nat)
    (hwf : WFb qs = true) (ht : 0 < t) :
    claimGet now (claimCreate now qs t g lim).2.2 (Ident.valid (claimCreate now qs t g lim).1)
      = Res.ok (⟨(claimCreate now qs t g lim).1, t⟩, (claimCreate now qs t g lim).2.1) := by
  have hsel := claimSelect_owned qs.claims now qs.nextClaimId t g qs.messages lim
    (WFb_not_bound hwf)
  have hlive : claimLiveb now (Claim.mk t g now) = true := by
    simp only [claimLiveb, decide_eq_true_eq]
    omega
  show claimGet now
      ⟨qs.metadata, (claimSelect qs.claims now qs.nextClaimId t g qs.messages lim).1,
        (qs.nextClaimId, ⟨t, g, now⟩) :: qs.claims, qs.nextMsgId, qs.nextClaimId + 1⟩
      (Ident.valid qs.nextClaimId)
    = Res.ok (⟨qs.nextClaimId, t⟩,
        (claimSelect qs.claims now qs.nextClaimId t g qs.messages lim).2)
  have hlk : (if qs.nextClaimId = qs.nextClaimId then some (Claim.mk t g now)
      else lookupA qs.claims qs.nextClaimId) = some (Claim.mk t g now) := if_pos rfl
  simp only [claimGet, lookupA, hlk, hlive, if_true, ownedViews]
  rw [hsel]

/-- Witness for claim_ttl_extension: the first message claimed out of the
ttl 120 fixtures under a (777, 0) claim. -/
theorem claim_ttl_extension_witness :
    ∃ i m, (i, m) ∈ (fixtures 20 120).messages ∧ (MsgView.mk 0 777 "b").id = i
      ∧ (MsgView.mk 0 777 "b").ttl = max (remaining 0 m) (777 + 0) :=
  claim_ttl_extension.1 0 (fixtures 20 120) 777 0 10 (MsgView.mk 0 777 "b") (by decide)

/-- Witness for claim_guarded_delete: message 10 is owned by live claim 1,
so deleting it with claim id 1 succeeds. -/
theorem claim_guarded_delete_witness :
    (msgDelete 0 claimResB.2.2 (Ident.valid 10) (some (Ident.valid 1))).isOk = true
      ↔ (1 : Nat) = 1 :=
  claim_guarded_delete.1 0 claimResB.2.2 10 1 1 (by decide)

/-- Witness for malformed_ids_treated_absent: deleting an unclaimed message
with a malformed claim token succeeds. -/
theorem malformed_ids_treated_absent_witness :
    (msgDelete 0 (fixtures 1 10) (Ident.valid 0)
      (some (Ident.malformed "; DROP TABLE queues"))).isOk = true :=
  malformed_ids_treated_absent.2.2.1 0 (fixtures 1 10) 0 "; DROP TABLE queues" (by decide)

/-- Witness for expired_indistinguishable_from_absent: the first ttl 0
message is expired, so get fails and delete is a no-op. -/
theorem expired_indistinguishable_from_absent_witness :
    msgGet 0 qsTwoExpired (Ident.valid 0) = Res.err Err.messageDoesNotExist
    ∧ msgDelete 0 qsTwoExpired (Ident.valid 0) none = Res.ok qsTwoExpired :=
  expired_indistinguishable_from_absent.1 0 qsTwoExpired 0 (by decide)

/-- Witness for queue_list_default_limit_pagination: the first entry of
the detailed page is queue 0 with its (empty) metadata present. -/
theorem queue_list_default_limit_pagination_witness :
    (QueueEntry.mk "0" (some [])).name ∈ qnames
    ∧ (QueueEntry.mk "0" (some [])).metadata.isSome = true :=
  queue_list_default_limit_pagination.2.1 (QueueEntry.mk "0" (some [])) (by decide)

/-- Witness for queue_create_idempotent: re-creating the existing test
queue leaves the store unchanged. -/
theorem queue_create_idempotent_witness :
    (queueCreate sMetaQueue "project" "test").2 = sMetaQueue :=
  (queue_create_idempotent.1 sMetaQueue "project" "test").2.1 (by decide)

/-- Witness for claim_update_frame: updating the live lifecycle claim to
ttl 100 succeeds and frames the messages. -/
theorem claim_update_frame_witness :
    ∃ qs', claimUpdate 0 lifecycleClaim.2.2 (Ident.valid 0) 100 = Res.ok qs'
      ∧ qs'.messages = lifecycleClaim.2.2.messages
      ∧ ownedViews 0 qs' 0 = ownedViews 0 lifecycleClaim.2.2 0
      ∧ (0 < 100 → claimGet 0 qs' (Ident.valid 0)
          = Res.ok (⟨0, 100⟩, ownedViews 0 lifecycleClaim.2.2 0)) :=
  claim_update_frame.1 0 lifecycleClaim.2.2 0 ⟨70, 30, 0⟩ 100 (by decide) (by decide)

/-- Witness for claim_roundtrip_live: a ttl 70 grace 30 claim over three
fresh messages round-trips through claim.get. -/
theorem claim_roundtrip_live_witness :
    claimGet 0 (claimCreate 0 (fixtures 3 120) 70 30 10).2.2
        (Ident.valid (claimCreate 0 (fixtures 3 120) 70 30 10).1)
      = Res.ok (⟨(claimCreate 0 (fixtures 3 120) 70 30 10).1, 70⟩,
          (claimCreate 0 (fixtures 3 120) 70 30 10).2.1) :=
  claim_roundtrip_live 0 (fixtures 3 120) 70 30 10 (by decide) (by decide)

end Marconi
